import Mathlib

/-!
Verification of the `hello` thread-pool library (src/lib.rs).

The pure layer embeds the data of `ThreadPool` and the bodies of
`ThreadPool::new` and `ThreadPool::execute` directly.  Panics are modelled
as `none` / `Except.error`.  The concurrent behaviour of the worker loop
(lines 66-78 of lib.rs), of `execute`, and of `Drop for ThreadPool`
(lines 107-131) is embedded as a small-step transition relation `Step`
on a system state `SysState`; jobs are identified by natural numbers and
the parameter `panics` tells which jobs terminate abnormally.
-/

namespace Hello

/-- Model of Rust `Box`: heap allocation is identity on the value. -/
structure Boxed (α : Type) where
  val : α

/-- Model of `Box::new`. -/
def boxNew {α : Type} (f : α) : Boxed α := ⟨f⟩

/-- A job closure: `FnOnce() + Send + 'static`, i.e. a no-argument,
no-return callable. -/
def JobFn : Type := Unit → Unit

/-- The `mpsc` channel as seen from the sender side: the FIFO queue of
pending messages plus whether the receiver half still exists.
`send` fails exactly when the receiver is gone. -/
structure Channel (α : Type) where
  queue : List α
  receiverAlive : Bool

/-- Model of `mpsc::Sender::send`: enqueues at the back, errors if the receiving
half has been dropped, never blocks. -/
def Channel.send {α : Type} (c : Channel α) (x : α) : Except Unit (Channel α) :=
  if c.receiverAlive then .ok { c with queue := c.queue ++ [x] } else .error ()

/-- The `ThreadPool` struct (lib.rs lines 6-19): the `Option`-wrapped sender and the
vector of `Option<(usize, JoinHandle<()>)>` worker handles.  The sender
handle and the join handles themselves are opaque (`Unit`). -/
structure ThreadPool where
  sender : Option Unit
  threads : List (Option (Nat × Unit))

/-- Embedding of `ThreadPool::new` (lib.rs lines 36-96): `assert!(size > 0)` is a
panic, modelled as `none`; otherwise the pool owns `Some sender` and one
`Some (id, handle)` per `id in 1..=size`. -/
def ThreadPool.new (size : Nat) : Option ThreadPool :=
  if size > 0 then
    some { sender := some ()
           threads := (List.range' 1 size).map (fun id => some (id, ())) }
  else
    none

/-- Embedding of `ThreadPool::execute` (lib.rs lines 22-34): box the closure, then
`self.sender.as_ref().unwrap().send(job).unwrap()`.  Both unwraps are
panics, modelled as `Except.error`; on success it returns `()` together
with the (unchanged) pool and the channel with the job enqueued. -/
def ThreadPool.execute (p : ThreadPool) (ch : Channel (Boxed JobFn)) (f : JobFn) :
    Except String (Unit × ThreadPool × Channel (Boxed JobFn)) :=
  let job := boxNew f
  match p.sender with
  | none => .error "called Option::unwrap on a None value"
  | some _ =>
    match ch.send job with
    | .error _ => .error "called Result::unwrap on an Err value: SendError"
    | .ok ch' => .ok ((), { sender := p.sender, threads := p.threads }, ch')

/-- The observable state of one worker thread spawned at lib.rs line 66.
`waiting` is the top of the `loop`, about to call `receiver.lock()`;
`receiving` holds the mutex guard, blocked in `.recv()`;
`running j` has released the guard (the guard is a temporary dropped at
the end of the `let message = ...` statement) and is executing `job()`;
`stopped` has executed `break`; `dead` was unwound by a panicking job. -/
inductive WorkerState where
  | waiting
  | receiving
  | running (job : Nat)
  | stopped
  | dead
  deriving DecidableEq, Repr

/-- The state of the thread owning the pool: `active` while the pool is
alive (it may call `execute`); `joining k` is inside `Drop::drop` after
`drop(self.sender.take())`, having joined the first `k` workers of the
`for thread in &mut self.threads` loop; `done` is after `drop` returned. -/
inductive MainState where
  | active
  | joining (k : Nat)
  | done
  deriving DecidableEq, Repr

/-- Global state of the pool system.  `queue` is the mpsc channel content
(FIFO), `senderAlive` whether the pool still owns the sender.  `executed`,
`delivered`, `submitted` and `panicked` are ghost histories, each in event
order: jobs whose closure returned, jobs handed to some worker by `recv`,
jobs passed to `execute`, and jobs that terminated abnormally.  `joinLog`
records the worker identifiers printed by the shutdown diagnostic
(lib.rs line 128) in emission order. -/
structure SysState where
  queue : List Nat
  senderAlive : Bool
  workers : List WorkerState
  main : MainState
  executed : List Nat
  delivered : List Nat
  submitted : List Nat
  panicked : List Nat
  joinLog : List Nat
  deriving DecidableEq, Repr

/-- Interleaving semantics of the pool: one constructor per atomic step of
the Rust program, parameterised by which job ids panic when run.
* `send`: `execute(j)` on the live pool (`sender.send` never blocks);
* `acquire`: a worker at the top of its loop wins `receiver.lock()`
  (possible only while no other worker holds the mutex);
* `recvOk`: `.recv()` returns `Ok(job)` with the queue head, dropping the
  mutex guard; the worker proceeds to run the job;
* `recvErr`: `.recv()` returns `Err` — queue empty and sender dropped —
  dropping the guard; the worker hits `break`;
* `finish`: `job()` returns; the worker loops back to `waiting`;
* `panicJob`: `job()` panics, unwinding the worker thread;
* `beginDrop`: `drop(self.sender.take())`, first statement of `drop`;
* `joinWorker`: the `for` loop in `drop` takes worker `k`, whose thread
  has finished (`stopped` or `dead`), joins it (a no-op if already
  finished) and prints the line-128 diagnostic with its id `k+1`;
* `finishDrop`: the `for` loop is exhausted and `drop` returns. -/
inductive Step (panics : Nat → Bool) : SysState → SysState → Prop where
  | send (s : SysState) (j : Nat) :
      s.main = .active →
      s.senderAlive = true →
      Step panics s { s with queue := s.queue ++ [j], submitted := s.submitted ++ [j] }
  | acquire (s : SysState) (i : Nat) :
      s.workers[i]? = some .waiting →
      (∀ k : Nat, s.workers[k]? ≠ some WorkerState.receiving) →
      Step panics s { s with workers := s.workers.set i .receiving }
  | recvOk (s : SysState) (i j : Nat) (rest : List Nat) :
      s.workers[i]? = some .receiving →
      s.queue = j :: rest →
      Step panics s { s with workers := s.workers.set i (.running j),
                             queue := rest,
                             delivered := s.delivered ++ [j] }
  | recvErr (s : SysState) (i : Nat) :
      s.workers[i]? = some .receiving →
      s.queue = [] →
      s.senderAlive = false →
      Step panics s { s with workers := s.workers.set i .stopped }
  | finish (s : SysState) (i j : Nat) :
      s.workers[i]? = some (.running j) →
      panics j = false →
      Step panics s { s with workers := s.workers.set i .waiting,
                             executed := s.executed ++ [j] }
  | panicJob (s : SysState) (i j : Nat) :
      s.workers[i]? = some (.running j) →
      panics j = true →
      Step panics s { s with workers := s.workers.set i .dead,
                             panicked := s.panicked ++ [j] }
  | beginDrop (s : SysState) :
      s.main = .active →
      Step panics s { s with senderAlive := false, main := .joining 0 }
  | joinWorker (s : SysState) (k : Nat) (w : WorkerState) :
      s.main = .joining k →
      s.workers[k]? = some w →
      (w = .stopped ∨ w = .dead) →
      Step panics s { s with main := .joining (k + 1), joinLog := s.joinLog ++ [k + 1] }
  | finishDrop (s : SysState) :
      s.main = .joining s.workers.length →
      Step panics s { s with main := .done }

/-- The state right after `ThreadPool::new size` returns: empty channel,
live sender, every worker at the top of its loop, no history. -/
def initState (size : Nat) : SysState :=
  { queue := []
    senderAlive := true
    workers := List.replicate size .waiting
    main := .active
    executed := []
    delivered := []
    submitted := []
    panicked := []
    joinLog := [] }

/-- States the system can be in after the pool is constructed. -/
inductive Reachable (panics : Nat → Bool) (size : Nat) : SysState → Prop where
  | init : Reachable panics size (initState size)
  | step {s t : SysState} :
      Reachable panics size s → Step panics s t → Reachable panics size t

/-- The jobs currently being executed by some worker, in worker order. -/
def runningJobs (ws : List WorkerState) : List Nat :=
  ws.filterMap (fun w => match w with | .running j => some j | _ => none)

/-- The job payload of a single worker state. -/
def jobOf (w : WorkerState) : List Nat :=
  match w with | .running j => [j] | _ => []

/-- Job environment in which every job returns normally, as required by
the Job contract (a one-shot callable that terminates). -/
def noPanic : Nat → Bool := fun _ => false

/-- The Waiting state of the spec's worker state machine: blocked on the
shared-handle receive, i.e. either about to take the receiver lock or
holding it inside `recv`. -/
def specWaiting (w : WorkerState) : Prop := w = .waiting ∨ w = .receiving

/-- The inductive invariant of the pool system, preserved by every `Step`
from the initial state.  Field by field:
* `wlen`: the worker vector never changes length;
* `alive`: the pool owns the sender exactly while it is alive;
* `sub`: the submission history splits into the delivery history followed
  by the channel content (hence deliveries happen in FIFO order);
* `deliv`: every delivered job is accounted for exactly once — finished,
  currently running, or having panicked;
* `stopDropped`: a worker only stops after the sender was dropped;
* `mutex`: at most one worker holds the receiver mutex;
* `joined`: while `drop` is joining worker `k`, sender released,
  diagnostics `1..k` already emitted in order, workers `0..k-1` finished;
* `doneAll`: when `drop` has returned, all diagnostics were emitted in
  ascending order and every worker thread has terminated;
* `allStopEmpty`: if every worker stopped normally the queue is empty;
* `deadPanics` / `panickedPanics`: abnormal termination only stems from
  panicking jobs;
* `oneWorker`: with a single worker and panic-free jobs, the execution
  history extends to the delivery history (FIFO-observed order);
* `activeLog`: no shutdown diagnostics before shutdown. -/
structure Inv (panics : Nat → Bool) (size : Nat) (s : SysState) : Prop where
  wlen : s.workers.length = size
  alive : s.senderAlive = true ↔ s.main = .active
  sub : s.submitted = s.delivered ++ s.queue
  deliv : s.delivered.Perm (s.executed ++ (runningJobs s.workers ++ s.panicked))
  stopDropped : ∀ i : Nat, s.workers[i]? = some .stopped → s.senderAlive = false
  mutex : ∀ i k : Nat, s.workers[i]? = some .receiving →
    s.workers[k]? = some .receiving → i = k
  joined : ∀ k : Nat, s.main = .joining k →
    k ≤ size ∧ s.joinLog = List.range' 1 k ∧
    ∀ i : Nat, i < k → (s.workers[i]? = some .stopped ∨ s.workers[i]? = some .dead)
  doneAll : s.main = .done →
    s.joinLog = List.range' 1 size ∧
    ∀ i : Nat, i < size → (s.workers[i]? = some .stopped ∨ s.workers[i]? = some .dead)
  allStopEmpty : 0 < size → (∀ i : Nat, i < size → s.workers[i]? = some .stopped) →
    s.queue = []
  deadPanics : ∀ i : Nat, s.workers[i]? = some .dead → ∃ j, panics j = true
  panickedPanics : ∀ j ∈ s.panicked, panics j = true
  oneWorker : size = 1 → (∀ j, panics j = false) →
    s.delivered = s.executed ++ runningJobs s.workers
  activeLog : s.main = .active → s.joinLog = []

end Hello

namespace Hello

/-- A successful indexed lookup means the index is in bounds. -/
theorem lt_of_getElem?_some {α : Type} {l : List α} {i : Nat} {x : α}
    (h : l[i]? = some x) : i < l.length := by
  rcases List.getElem?_eq_some_iff.mp h with ⟨hb, -⟩
  exact hb

/-- Lookup at the updated index. -/
theorem getElem?_set_self_of_lt {α : Type} {l : List α} {i : Nat} {x : α}
    (h : i < l.length) : (l.set i x)[i]? = some x := by
  rw [List.getElem?_set]
  simp [h]

/-- Case split for a lookup in an updated list. -/
theorem getElem?_set_cases {α : Type} {l : List α} {i i2 : Nat} {x y : α}
    (h : (l.set i x)[i2]? = some y) :
    (i = i2 ∧ x = y) ∨ (i ≠ i2 ∧ l[i2]? = some y) := by
  rcases eq_or_ne i i2 with rfl | hne
  · rw [List.getElem?_set] at h
    by_cases hb : i < l.length
    · simp only [if_pos rfl, if_pos hb] at h
      exact Or.inl ⟨rfl, Option.some.inj h⟩
    · simp only [if_pos rfl, if_neg hb] at h
      exact Option.noConfusion h
  · rw [List.getElem?_set_ne hne] at h
    exact Or.inr ⟨hne, h⟩

/-- The list `runningJobs` distributes over cons. -/
theorem runningJobs_cons (w : WorkerState) (t : List WorkerState) :
    runningJobs (w :: t) = jobOf w ++ runningJobs t := by
  cases w <;> simp [runningJobs, jobOf, List.filterMap_cons]

/-- Updating one worker exchanges its job payload in `runningJobs`,
counted for any value. -/
theorem count_runningJobs_set (ws : List WorkerState) (i : Nat)
    (w w' : WorkerState) (a : Nat) (h : ws[i]? = some w) :
    (runningJobs (ws.set i w')).count a + (jobOf w).count a
      = (runningJobs ws).count a + (jobOf w').count a := by
  induction ws generalizing i with
  | nil => simp at h
  | cons b t ih =>
    cases i with
    | zero =>
      simp only [List.getElem?_cons_zero, Option.some.injEq] at h
      subst h
      rw [List.set_cons_zero, runningJobs_cons, runningJobs_cons]
      simp [List.count_append]
      omega
    | succ n =>
      simp only [List.getElem?_cons_succ] at h
      have hih := ih n h
      rw [List.set_cons_succ, runningJobs_cons, runningJobs_cons]
      simp only [List.count_append]
      omega

/-- Updating a jobless worker to another jobless state leaves
`runningJobs` unchanged on the nose. -/
theorem runningJobs_set_nil (ws : List WorkerState) (i : Nat)
    (w w' : WorkerState) (h : ws[i]? = some w)
    (h1 : jobOf w = []) (h2 : jobOf w' = []) :
    runningJobs (ws.set i w') = runningJobs ws := by
  induction ws generalizing i with
  | nil => simp at h
  | cons b t ih =>
    cases i with
    | zero =>
      simp only [List.getElem?_cons_zero, Option.some.injEq] at h
      subst h
      rw [List.set_cons_zero, runningJobs_cons, runningJobs_cons, h1, h2]
    | succ n =>
      simp only [List.getElem?_cons_succ] at h
      rw [List.set_cons_succ, runningJobs_cons, runningJobs_cons, ih n h]

/-- Every step preserves the invariant. -/
theorem inv_step {panics : Nat → Bool} {size : Nat} {s t : SysState}
    (hs : Inv panics size s) (hstep : Step panics s t) : Inv panics size t := by
  obtain ⟨wlen, alive, sub, deliv, stopDropped, mutex, joined, doneAll, allStopEmpty,
          deadPanics, panickedPanics, oneWorker, activeLog⟩ := hs
  cases hstep with
  | send j hm ha =>
    refine ⟨wlen, alive, ?_, deliv, stopDropped, mutex, joined, doneAll, ?_,
            deadPanics, panickedPanics, oneWorker, activeLog⟩
    · show s.submitted ++ [j] = s.delivered ++ (s.queue ++ [j])
      rw [sub, List.append_assoc]
    · intro hsz hall
      have hf := stopDropped 0 (hall 0 hsz)
      rw [ha] at hf
      cases hf
  | acquire i hw hno =>
    have hilen : i < s.workers.length := lt_of_getElem?_some hw
    refine ⟨?_, alive, sub, ?_, ?_, ?_, ?_, ?_, ?_, ?_, panickedPanics, ?_, activeLog⟩
    · rw [List.length_set]; exact wlen
    · refine List.perm_iff_count.mpr (fun a => ?_)
      have hd := List.perm_iff_count.mp deliv a
      have hc := count_runningJobs_set s.workers i .waiting .receiving a hw
      simp only [List.count_append] at hd hc ⊢
      simp only [jobOf, List.count_nil] at hc
      omega
    · intro i2 h2
      rcases getElem?_set_cases h2 with ⟨rfl, he⟩ | ⟨hne, h2'⟩
      · exact WorkerState.noConfusion he
      · exact stopDropped i2 h2'
    · intro i1 i2 h1 h2
      rcases getElem?_set_cases h1 with ⟨rfl, he1⟩ | ⟨hne1, h1'⟩
      · rcases getElem?_set_cases h2 with ⟨heq, he2⟩ | ⟨hne2, h2'⟩
        · exact heq
        · exact absurd h2' (hno i2)
      · exact absurd h1' (hno i1)
    · intro k hk
      obtain ⟨hk1, hk2, hk3⟩ := joined k hk
      refine ⟨hk1, hk2, fun i2 hi2 => ?_⟩
      rcases eq_or_ne i i2 with rfl | hne
      · have hx := hk3 _ hi2
        rw [hw] at hx
        simp at hx
      · rw [List.getElem?_set_ne hne]
        exact hk3 i2 hi2
    · intro hdone
      obtain ⟨hd1, hd2⟩ := doneAll hdone
      refine ⟨hd1, fun i2 hi2 => ?_⟩
      rcases eq_or_ne i i2 with rfl | hne
      · have hx := hd2 _ hi2
        rw [hw] at hx
        simp at hx
      · rw [List.getElem?_set_ne hne]
        exact hd2 i2 hi2
    · intro hsz hall
      have hx := hall i (by rw [← wlen]; exact hilen)
      rw [getElem?_set_self_of_lt hilen] at hx
      simp at hx
    · intro i2 h2
      rcases getElem?_set_cases h2 with ⟨rfl, he⟩ | ⟨hne, h2'⟩
      · exact WorkerState.noConfusion he
      · exact deadPanics i2 h2'
    · intro h1 hnp
      rw [runningJobs_set_nil s.workers i .waiting .receiving hw rfl rfl]
      exact oneWorker h1 hnp
  | recvOk i j rest hw hq =>
    have hilen : i < s.workers.length := lt_of_getElem?_some hw
    refine ⟨?_, alive, ?_, ?_, ?_, ?_, ?_, ?_, ?_, ?_, panickedPanics, ?_, activeLog⟩
    · rw [List.length_set]; exact wlen
    · show s.submitted = (s.delivered ++ [j]) ++ rest
      rw [sub, hq]
      simp
    · refine List.perm_iff_count.mpr (fun a => ?_)
      have hd := List.perm_iff_count.mp deliv a
      have hc := count_runningJobs_set s.workers i .receiving (.running j) a hw
      simp only [List.count_append] at hd hc ⊢
      simp only [jobOf, List.count_nil] at hc
      omega
    · intro i2 h2
      rcases getElem?_set_cases h2 with ⟨rfl, he⟩ | ⟨hne, h2'⟩
      · exact WorkerState.noConfusion he
      · exact stopDropped i2 h2'
    · intro i1 i2 h1 h2
      rcases getElem?_set_cases h1 with ⟨rfl, he1⟩ | ⟨hne1, h1'⟩
      · exact WorkerState.noConfusion he1
      · rcases getElem?_set_cases h2 with ⟨rfl, he2⟩ | ⟨hne2, h2'⟩
        · exact WorkerState.noConfusion he2
        · exact mutex i1 i2 h1' h2'
    · intro k hk
      obtain ⟨hk1, hk2, hk3⟩ := joined k hk
      refine ⟨hk1, hk2, fun i2 hi2 => ?_⟩
      rcases eq_or_ne i i2 with rfl | hne
      · have hx := hk3 _ hi2
        rw [hw] at hx
        simp at hx
      · rw [List.getElem?_set_ne hne]
        exact hk3 i2 hi2
    · intro hdone
      obtain ⟨hd1, hd2⟩ := doneAll hdone
      refine ⟨hd1, fun i2 hi2 => ?_⟩
      rcases eq_or_ne i i2 with rfl | hne
      · have hx := hd2 _ hi2
        rw [hw] at hx
        simp at hx
      · rw [List.getElem?_set_ne hne]
        exact hd2 i2 hi2
    · intro hsz hall
      have hx := hall i (by rw [← wlen]; exact hilen)
      rw [getElem?_set_self_of_lt hilen] at hx
      simp at hx
    · intro i2 h2
      rcases getElem?_set_cases h2 with ⟨rfl, he⟩ | ⟨hne, h2'⟩
      · exact WorkerState.noConfusion he
      · exact deadPanics i2 h2'
    · intro h1 hnp
      have hlen1 : s.workers.length = 1 := by rw [wlen]; exact h1
      obtain ⟨w1, hw1⟩ := List.length_eq_one.mp hlen1
      have hi0 : i = 0 := by
        rw [hlen1] at hilen
        omega
      subst hi0
      rw [hw1] at hw
      simp only [List.getElem?_cons_zero, Option.some.injEq] at hw
      subst hw
      have hone := oneWorker h1 hnp
      rw [hw1] at hone ⊢
      simp only [List.set_cons_zero, runningJobs_cons, jobOf] at hone ⊢
      simp only [runningJobs, List.filterMap_nil] at hone ⊢
      simp at hone
      rw [hone]
      simp
  | recvErr i hw hq hsd =>
    have hilen : i < s.workers.length := lt_of_getElem?_some hw
    refine ⟨?_, alive, sub, ?_, ?_, ?_, ?_, ?_, ?_, ?_, panickedPanics, ?_, activeLog⟩
    · rw [List.length_set]; exact wlen
    · refine List.perm_iff_count.mpr (fun a => ?_)
      have hd := List.perm_iff_count.mp deliv a
      have hc := count_runningJobs_set s.workers i .receiving .stopped a hw
      simp only [List.count_append] at hd hc ⊢
      simp only [jobOf, List.count_nil] at hc
      omega
    · intro i2 h2
      rcases getElem?_set_cases h2 with ⟨rfl, he⟩ | ⟨hne, h2'⟩
      · exact hsd
      · exact stopDropped i2 h2'
    · intro i1 i2 h1 h2
      rcases getElem?_set_cases h1 with ⟨rfl, he1⟩ | ⟨hne1, h1'⟩
      · exact WorkerState.noConfusion he1
      · rcases getElem?_set_cases h2 with ⟨rfl, he2⟩ | ⟨hne2, h2'⟩
        · exact WorkerState.noConfusion he2
        · exact mutex i1 i2 h1' h2'
    · intro k hk
      obtain ⟨hk1, hk2, hk3⟩ := joined k hk
      refine ⟨hk1, hk2, fun i2 hi2 => ?_⟩
      rcases eq_or_ne i i2 with rfl | hne
      · have hx := hk3 _ hi2
        rw [hw] at hx
        simp at hx
      · rw [List.getElem?_set_ne hne]
        exact hk3 i2 hi2
    · intro hdone
      obtain ⟨hd1, hd2⟩ := doneAll hdone
      refine ⟨hd1, fun i2 hi2 => ?_⟩
      rcases eq_or_ne i i2 with rfl | hne
      · have hx := hd2 _ hi2
        rw [hw] at hx
        simp at hx
      · rw [List.getElem?_set_ne hne]
        exact hd2 i2 hi2
    · intro _ _
      exact hq
    · intro i2 h2
      rcases getElem?_set_cases h2 with ⟨rfl, he⟩ | ⟨hne, h2'⟩
      · exact WorkerState.noConfusion he
      · exact deadPanics i2 h2'
    · intro h1 hnp
      rw [runningJobs_set_nil s.workers i .receiving .stopped hw rfl rfl]
      exact oneWorker h1 hnp
  | finish i j hw hnp =>
    have hilen : i < s.workers.length := lt_of_getElem?_some hw
    refine ⟨?_, alive, sub, ?_, ?_, ?_, ?_, ?_, ?_, ?_, panickedPanics, ?_, activeLog⟩
    · rw [List.length_set]; exact wlen
    · refine List.perm_iff_count.mpr (fun a => ?_)
      have hd := List.perm_iff_count.mp deliv a
      have hc := count_runningJobs_set s.workers i (.running j) .waiting a hw
      simp only [List.count_append] at hd hc ⊢
      simp only [jobOf, List.count_nil] at hc
      omega
    · intro i2 h2
      rcases getElem?_set_cases h2 with ⟨rfl, he⟩ | ⟨hne, h2'⟩
      · exact WorkerState.noConfusion he
      · exact stopDropped i2 h2'
    · intro i1 i2 h1 h2
      rcases getElem?_set_cases h1 with ⟨rfl, he1⟩ | ⟨hne1, h1'⟩
      · exact WorkerState.noConfusion he1
      · rcases getElem?_set_cases h2 with ⟨rfl, he2⟩ | ⟨hne2, h2'⟩
        · exact WorkerState.noConfusion he2
        · exact mutex i1 i2 h1' h2'
    · intro k hk
      obtain ⟨hk1, hk2, hk3⟩ := joined k hk
      refine ⟨hk1, hk2, fun i2 hi2 => ?_⟩
      rcases eq_or_ne i i2 with rfl | hne
      · have hx := hk3 _ hi2
        rw [hw] at hx
        simp at hx
      · rw [List.getElem?_set_ne hne]
        exact hk3 i2 hi2
    · intro hdone
      obtain ⟨hd1, hd2⟩ := doneAll hdone
      refine ⟨hd1, fun i2 hi2 => ?_⟩
      rcases eq_or_ne i i2 with rfl | hne
      · have hx := hd2 _ hi2
        rw [hw] at hx
        simp at hx
      · rw [List.getElem?_set_ne hne]
        exact hd2 i2 hi2
    · intro hsz hall
      have hx := hall i (by rw [← wlen]; exact hilen)
      rw [getElem?_set_self_of_lt hilen] at hx
      simp at hx
    · intro i2 h2
      rcases getElem?_set_cases h2 with ⟨rfl, he⟩ | ⟨hne, h2'⟩
      · exact WorkerState.noConfusion he
      · exact deadPanics i2 h2'
    · intro h1 hnp
      have hlen1 : s.workers.length = 1 := by rw [wlen]; exact h1
      obtain ⟨w1, hw1⟩ := List.length_eq_one.mp hlen1
      have hi0 : i = 0 := by
        rw [hlen1] at hilen
        omega
      subst hi0
      rw [hw1] at hw
      simp only [List.getElem?_cons_zero, Option.some.injEq] at hw
      subst hw
      have hone := oneWorker h1 hnp
      rw [hw1] at hone ⊢
      simp only [List.set_cons_zero, runningJobs_cons, jobOf] at hone ⊢
      simp only [runningJobs, List.filterMap_nil] at hone ⊢
      simp at hone ⊢
      exact hone
  | panicJob i j hw hp =>
    have hilen : i < s.workers.length := lt_of_getElem?_some hw
    refine ⟨?_, alive, sub, ?_, ?_, ?_, ?_, ?_, ?_, ?_, ?_, ?_, activeLog⟩
    · rw [List.length_set]; exact wlen
    · refine List.perm_iff_count.mpr (fun a => ?_)
      have hd := List.perm_iff_count.mp deliv a
      have hc := count_runningJobs_set s.workers i (.running j) .dead a hw
      simp only [List.count_append] at hd hc ⊢
      simp only [jobOf, List.count_nil] at hc
      omega
    · intro i2 h2
      rcases getElem?_set_cases h2 with ⟨rfl, he⟩ | ⟨hne, h2'⟩
      · exact WorkerState.noConfusion he
      · exact stopDropped i2 h2'
    · intro i1 i2 h1 h2
      rcases getElem?_set_cases h1 with ⟨rfl, he1⟩ | ⟨hne1, h1'⟩
      · exact WorkerState.noConfusion he1
      · rcases getElem?_set_cases h2 with ⟨rfl, he2⟩ | ⟨hne2, h2'⟩
        · exact WorkerState.noConfusion he2
        · exact mutex i1 i2 h1' h2'
    · intro k hk
      obtain ⟨hk1, hk2, hk3⟩ := joined k hk
      refine ⟨hk1, hk2, fun i2 hi2 => ?_⟩
      rcases eq_or_ne i i2 with rfl | hne
      · have hx := hk3 _ hi2
        rw [hw] at hx
        simp at hx
      · rw [List.getElem?_set_ne hne]
        exact hk3 i2 hi2
    · intro hdone
      obtain ⟨hd1, hd2⟩ := doneAll hdone
      refine ⟨hd1, fun i2 hi2 => ?_⟩
      rcases eq_or_ne i i2 with rfl | hne
      · have hx := hd2 _ hi2
        rw [hw] at hx
        simp at hx
      · rw [List.getElem?_set_ne hne]
        exact hd2 i2 hi2
    · intro hsz hall
      have hx := hall i (by rw [← wlen]; exact hilen)
      rw [getElem?_set_self_of_lt hilen] at hx
      simp at hx
    · intro i2 h2
      rcases getElem?_set_cases h2 with ⟨rfl, he⟩ | ⟨hne, h2'⟩
      · exact ⟨j, hp⟩
      · exact deadPanics i2 h2'
    · intro j2 hj2
      rcases List.mem_append.mp hj2 with h | h
      · exact panickedPanics j2 h
      · rw [List.mem_singleton.mp h]
        exact hp
    · intro h1 hnpAll
      rw [hnpAll j] at hp
      exact Bool.noConfusion hp
  | beginDrop hm =>
    refine ⟨wlen, ?_, sub, deliv, ?_, mutex, ?_, ?_, allStopEmpty, deadPanics,
            panickedPanics, oneWorker, ?_⟩
    · simp
    · intro i2 _
      rfl
    · intro k hk
      injection hk with hk'
      subst hk'
      refine ⟨Nat.zero_le _, ?_, fun i2 hi2 => absurd hi2 (Nat.not_lt_zero _)⟩
      rw [activeLog hm]
      rfl
    · intro hdone
      simp at hdone
    · intro hact
      simp at hact
  | joinWorker k w hm hw hsd =>
    have hklen : k < s.workers.length := lt_of_getElem?_some hw
    have hnact : s.main ≠ .active := by rw [hm]; simp
    refine ⟨wlen, ?_, sub, deliv, stopDropped, mutex, ?_, ?_, allStopEmpty,
            deadPanics, panickedPanics, oneWorker, ?_⟩
    · constructor
      · intro h
        exact absurd (alive.mp h) hnact
      · intro h
        simp at h
    · intro k2 hk2
      injection hk2 with hk2'
      subst hk2'
      obtain ⟨hj1, hj2, hj3⟩ := joined k hm
      refine ⟨by omega, ?_, ?_⟩
      · show s.joinLog ++ [k + 1] = List.range' 1 (k + 1)
        rw [hj2, List.range'_concat]
        simp [Nat.add_comm]
      · intro i2 hi2
        rcases Nat.lt_succ_iff_lt_or_eq.mp hi2 with h | rfl
        · exact hj3 i2 h
        · rcases hsd with rfl | rfl
          · exact Or.inl hw
          · exact Or.inr hw
    · intro hdone
      simp at hdone
    · intro hact
      simp at hact
  | finishDrop hm =>
    have hnact : s.main ≠ .active := by rw [hm]; simp
    refine ⟨wlen, ?_, sub, deliv, stopDropped, mutex, ?_, ?_, allStopEmpty,
            deadPanics, panickedPanics, oneWorker, ?_⟩
    · constructor
      · intro h
        exact absurd (alive.mp h) hnact
      · intro h
        simp at h
    · intro k2 hk2
      simp at hk2
    · intro _
      obtain ⟨hj1, hj2, hj3⟩ := joined s.workers.length hm
      rw [wlen] at hj2 hj3
      exact ⟨hj2, hj3⟩
    · intro hact
      simp at hact

/-- A fresh pool runs nothing. -/
theorem runningJobs_replicate (n : Nat) :
    runningJobs (List.replicate n .waiting) = [] := by
  induction n with
  | zero => rfl
  | succ m ih => rw [List.replicate_succ, runningJobs_cons, ih]; rfl

/-- In the initial state every worker slot holds a waiting worker. -/
theorem initState_workers_get (size i : Nat) {w : WorkerState}
    (h : (initState size).workers[i]? = some w) : w = .waiting := by
  simp only [initState, List.getElem?_replicate] at h
  split at h
  · exact (Option.some.inj h).symm
  · exact Option.noConfusion h

/-- The invariant holds right after construction. -/
theorem inv_init (panics : Nat → Bool) (size : Nat) :
    Inv panics size (initState size) := by
  refine ⟨?_, ?_, rfl, ?_, ?_, ?_, ?_, ?_, ?_, ?_, ?_, ?_, fun _ => rfl⟩
  · simp [initState]
  · simp [initState]
  · simp [initState, runningJobs_replicate]
  · intro i h
    exact WorkerState.noConfusion (initState_workers_get size i h)
  · intro i k h1 h2
    exact WorkerState.noConfusion (initState_workers_get size i h1)
  · intro k hk
    simp [initState] at hk
  · intro hdone
    simp [initState] at hdone
  · intro _ _
    rfl
  · intro i h
    exact WorkerState.noConfusion (initState_workers_get size i h)
  · intro j hj
    simp [initState] at hj
  · intro _ _
    simp [initState, runningJobs_replicate]

/-- Every reachable state satisfies the invariant. -/
theorem reachable_inv {panics : Nat → Bool} {size : Nat} {s : SysState}
    (h : Reachable panics size s) : Inv panics size s := by
  induction h with
  | init => exact inv_init panics size
  | step _ hstep ih =>
    exact inv_step ih hstep

/-- Claim C2: teardown first releases the producer handle — while the
teardown is joining (`joining k`) and after it returned (`done`) the
sender is gone, and from any such state no step can extend the
submission history — then waits for the workers in ascending identifier
order, the diagnostic log reading `1, 2, ..., k` in order; teardown
reaches `done` only once every worker's execution context has finished. -/
theorem teardown_spec {panics : Nat → Bool} {size : Nat} {s : SysState}
    (hr : Reachable panics size s) :
    (∀ k : Nat, s.main = .joining k →
        s.senderAlive = false ∧ s.joinLog = List.range' 1 k ∧
        ∀ i : Nat, i < k →
          (s.workers[i]? = some .stopped ∨ s.workers[i]? = some .dead)) ∧
    (s.main = .done →
        s.senderAlive = false ∧ s.joinLog = List.range' 1 size ∧
        ∀ i : Nat, i < size →
          (s.workers[i]? = some .stopped ∨ s.workers[i]? = some .dead)) ∧
    (s.main ≠ .active → ∀ t, Step panics s t → t.submitted = s.submitted) := by
  have hinv := reachable_inv hr
  have hdrop : s.main ≠ .active → s.senderAlive = false := by
    intro hna
    cases hsa : s.senderAlive
    · rfl
    · exact absurd (hinv.alive.mp hsa) hna
  refine ⟨?_, ?_, ?_⟩
  · intro k hk
    obtain ⟨-, h2, h3⟩ := hinv.joined k hk
    exact ⟨hdrop (by rw [hk]; simp), h2, h3⟩
  · intro hk
    obtain ⟨h2, h3⟩ := hinv.doneAll hk
    exact ⟨hdrop (by rw [hk]; simp), h2, h3⟩
  · intro hna t hstep
    cases hstep with
    | send j hm ha => exact absurd hm hna
    | acquire i hw hno => rfl
    | recvOk i j rest hw hq => rfl
    | recvErr i hw hq hsd => rfl
    | finish i j hw hnp => rfl
    | panicJob i j hw hp => rfl
    | beginDrop hm => rfl
    | joinWorker k w hm hw hsd => rfl
    | finishDrop hm => rfl

/-- Witness for C2: a complete teardown of a one-worker pool reaches
`done` with the diagnostic log `[1]` and the sender released. -/
theorem teardown_spec_witness :
    (⟨[], false, [.stopped], .done, [], [], [], [], [1]⟩ : SysState).joinLog
        = List.range' 1 1 ∧
    (⟨[], false, [.stopped], .done, [], [], [], [], [1]⟩ : SysState).senderAlive
        = false := by
  have h0 : Reachable noPanic 1 (initState 1) := Reachable.init
  have h1 : Reachable noPanic 1
      (⟨[], false, [.waiting], .joining 0, [], [], [], [], []⟩ : SysState) :=
    Reachable.step h0 (Step.beginDrop _ rfl)
  have h2 : Reachable noPanic 1
      (⟨[], false, [.receiving], .joining 0, [], [], [], [], []⟩ : SysState) :=
    Reachable.step h1 (Step.acquire _ 0 rfl (by intro k; rcases k with _ | k <;> simp))
  have h3 : Reachable noPanic 1
      (⟨[], false, [.stopped], .joining 0, [], [], [], [], []⟩ : SysState) :=
    Reachable.step h2 (Step.recvErr _ 0 rfl rfl rfl)
  have h4 : Reachable noPanic 1
      (⟨[], false, [.stopped], .joining 1, [], [], [], [], [1]⟩ : SysState) :=
    Reachable.step h3 (Step.joinWorker _ 0 .stopped rfl rfl (Or.inl rfl))
  have h5 : Reachable noPanic 1
      (⟨[], false, [.stopped], .done, [], [], [], [], [1]⟩ : SysState) :=
    Reachable.step h4 (Step.finishDrop _ rfl)
  have h := (teardown_spec h5).2.1 rfl
  exact ⟨h.2.1, h.1⟩

/-- Claim C3: with jobs meeting the Job contract (they terminate — no
panicking jobs), once teardown has returned every job submitted before
teardown was delivered to exactly one worker and ran to completion
exactly once: the execution history is a permutation of the submission
history, the delivery history equals it, and nothing is left queued or
running — jobs enqueued when the sender was released were still drained. -/
theorem jobs_run_exactly_once {size : Nat} {s : SysState}
    (hsz : 1 ≤ size) (hr : Reachable noPanic size s) (hdone : s.main = .done) :
    s.executed.Perm s.submitted ∧ s.delivered = s.submitted ∧
    s.queue = [] ∧ runningJobs s.workers = [] := by
  have hinv := reachable_inv hr
  have hstop : ∀ i : Nat, i < size → s.workers[i]? = some .stopped := by
    intro i hi
    rcases (hinv.doneAll hdone).2 i hi with h | h
    · exact h
    · obtain ⟨j, hj⟩ := hinv.deadPanics i h
      exact absurd hj (by simp [noPanic])
  have hq : s.queue = [] :=
    hinv.allStopEmpty (Nat.lt_of_lt_of_le Nat.zero_lt_one hsz) hstop
  have hrun : runningJobs s.workers = [] := by
    rw [List.eq_nil_iff_forall_not_mem]
    intro j hj
    rw [runningJobs, List.mem_filterMap] at hj
    obtain ⟨w, hwmem, hwf⟩ := hj
    obtain ⟨i, hig⟩ := List.mem_iff_getElem?.mp hwmem
    have hi : i < size := by
      have := lt_of_getElem?_some hig
      rw [hinv.wlen] at this
      exact this
    rw [hstop i hi] at hig
    obtain rfl := Option.some.inj hig
    exact Option.noConfusion hwf
  have hpan : s.panicked = [] := by
    rw [List.eq_nil_iff_forall_not_mem]
    intro j hj
    have := hinv.panickedPanics j hj
    simp [noPanic] at this
  have hds : s.delivered = s.submitted := by
    rw [hinv.sub, hq, List.append_nil]
  have hperm := hinv.deliv
  rw [hrun, hpan] at hperm
  simp only [List.append_nil] at hperm
  rw [hds] at hperm
  exact ⟨hperm.symm, hds, hq, hrun⟩

/-- Witness for C3: a one-worker pool that receives one job, tears down,
and has executed exactly its submission history. -/
theorem jobs_run_exactly_once_witness :
    (⟨[], false, [.stopped], .done, [5], [5], [5], [], [1]⟩ : SysState).executed.Perm
      (⟨[], false, [.stopped], .done, [5], [5], [5], [], [1]⟩ : SysState).submitted ∧
    (⟨[], false, [.stopped], .done, [5], [5], [5], [], [1]⟩ : SysState).delivered
      = (⟨[], false, [.stopped], .done, [5], [5], [5], [], [1]⟩ : SysState).submitted ∧
    (⟨[], false, [.stopped], .done, [5], [5], [5], [], [1]⟩ : SysState).queue = [] ∧
    runningJobs (⟨[], false, [.stopped], .done, [5], [5], [5], [], [1]⟩ : SysState).workers
      = [] := by
  have h0 : Reachable noPanic 1 (initState 1) := Reachable.init
  have h1 : Reachable noPanic 1
      (⟨[5], true, [.waiting], .active, [], [], [5], [], []⟩ : SysState) :=
    Reachable.step h0 (Step.send _ 5 rfl rfl)
  have h2 : Reachable noPanic 1
      (⟨[5], false, [.waiting], .joining 0, [], [], [5], [], []⟩ : SysState) :=
    Reachable.step h1 (Step.beginDrop _ rfl)
  have h3 : Reachable noPanic 1
      (⟨[5], false, [.receiving], .joining 0, [], [], [5], [], []⟩ : SysState) :=
    Reachable.step h2 (Step.acquire _ 0 rfl (by intro k; rcases k with _ | k <;> simp))
  have h4 : Reachable noPanic 1
      (⟨[], false, [.running 5], .joining 0, [], [5], [5], [], []⟩ : SysState) :=
    Reachable.step h3 (Step.recvOk _ 0 5 [] rfl rfl)
  have h5 : Reachable noPanic 1
      (⟨[], false, [.waiting], .joining 0, [5], [5], [5], [], []⟩ : SysState) :=
    Reachable.step h4 (Step.finish _ 0 5 rfl rfl)
  have h6 : Reachable noPanic 1
      (⟨[], false, [.receiving], .joining 0, [5], [5], [5], [], []⟩ : SysState) :=
    Reachable.step h5 (Step.acquire _ 0 rfl (by intro k; rcases k with _ | k <;> simp))
  have h7 : Reachable noPanic 1
      (⟨[], false, [.stopped], .joining 0, [5], [5], [5], [], []⟩ : SysState) :=
    Reachable.step h6 (Step.recvErr _ 0 rfl rfl rfl)
  have h8 : Reachable noPanic 1
      (⟨[], false, [.stopped], .joining 1, [5], [5], [5], [], [1]⟩ : SysState) :=
    Reachable.step h7 (Step.joinWorker _ 0 .stopped rfl rfl (Or.inl rfl))
  have h9 : Reachable noPanic 1
      (⟨[], false, [.stopped], .done, [5], [5], [5], [], [1]⟩ : SysState) :=
    Reachable.step h8 (Step.finishDrop _ rfl)
  exact jobs_run_exactly_once (by decide) h9 rfl

/-- Claim C4: each worker's loop is the claimed state machine: from
Waiting (blocked on the shared receive, `specWaiting`) it moves to
Running only on a successful dequeue of the queue head (recording the
delivery); from Running it moves back to Waiting exactly when the job
returns, recording the execution; Waiting moves to the terminal Stopped
state only when receive reports the channel closed (queue drained and
sender gone); and a Stopped worker never moves again — in particular it
never dequeues or runs another job. -/
theorem worker_state_machine (panics : Nat → Bool) {s t : SysState} (i : Nat)
    (hstep : Step panics s t) :
    (s.workers[i]? = some .stopped → t.workers[i]? = some .stopped) ∧
    (∀ (w : WorkerState) (j : Nat), s.workers[i]? = some w → specWaiting w →
        t.workers[i]? = some (.running j) →
        s.queue = j :: t.queue ∧ t.delivered = s.delivered ++ [j]) ∧
    (∀ j : Nat, s.workers[i]? = some (.running j) → panics j = false →
        t.workers[i]? = some (.running j) ∨
        (t.workers[i]? = some .waiting ∧ t.executed = s.executed ++ [j])) ∧
    (∀ w : WorkerState, s.workers[i]? = some w → specWaiting w →
        t.workers[i]? = some .stopped →
        s.queue = [] ∧ s.senderAlive = false) := by
  cases hstep with
  | send j hm ha =>
    refine ⟨fun h => h, ?_, ?_, ?_⟩
    · intro w j2 hw hsw ht
      rcases hsw with rfl | rfl <;> (have hx := hw.symm.trans ht; simp at hx)
    · intro j2 hw hnp
      exact Or.inl hw
    · intro w hw hsw ht
      rcases hsw with rfl | rfl <;> (have hx := hw.symm.trans ht; simp at hx)
  | acquire i0 hw0 hno =>
    refine ⟨?_, ?_, ?_, ?_⟩
    · intro h
      rcases eq_or_ne i0 i with rfl | hne
      · have hx := hw0.symm.trans h
        simp at hx
      · rw [List.getElem?_set_ne hne]
        exact h
    · intro w j2 hw hsw ht
      rcases getElem?_set_cases ht with ⟨rfl, he⟩ | ⟨hne, ht'⟩
      · exact WorkerState.noConfusion he
      · rcases hsw with rfl | rfl <;> (have hx := hw.symm.trans ht'; simp at hx)
    · intro j2 hw hnp
      rcases eq_or_ne i0 i with rfl | hne
      · have hx := hw0.symm.trans hw
        simp at hx
      · rw [List.getElem?_set_ne hne]
        exact Or.inl hw
    · intro w hw hsw ht
      rcases getElem?_set_cases ht with ⟨rfl, he⟩ | ⟨hne, ht'⟩
      · exact WorkerState.noConfusion he
      · rcases hsw with rfl | rfl <;> (have hx := hw.symm.trans ht'; simp at hx)
  | recvOk i0 j0 rest hw0 hq0 =>
    refine ⟨?_, ?_, ?_, ?_⟩
    · intro h
      rcases eq_or_ne i0 i with rfl | hne
      · have hx := hw0.symm.trans h
        simp at hx
      · rw [List.getElem?_set_ne hne]
        exact h
    · intro w j2 hw hsw ht
      rcases getElem?_set_cases ht with ⟨rfl, he⟩ | ⟨hne, ht'⟩
      · injection he with hj
        subst hj
        exact ⟨hq0, rfl⟩
      · rcases hsw with rfl | rfl <;> (have hx := hw.symm.trans ht'; simp at hx)
    · intro j2 hw hnp
      rcases eq_or_ne i0 i with rfl | hne
      · have hx := hw0.symm.trans hw
        simp at hx
      · rw [List.getElem?_set_ne hne]
        exact Or.inl hw
    · intro w hw hsw ht
      rcases getElem?_set_cases ht with ⟨rfl, he⟩ | ⟨hne, ht'⟩
      · exact WorkerState.noConfusion he
      · rcases hsw with rfl | rfl <;> (have hx := hw.symm.trans ht'; simp at hx)
  | recvErr i0 hw0 hq0 hsd0 =>
    refine ⟨?_, ?_, ?_, ?_⟩
    · intro h
      rcases eq_or_ne i0 i with rfl | hne
      · have hx := hw0.symm.trans h
        simp at hx
      · rw [List.getElem?_set_ne hne]
        exact h
    · intro w j2 hw hsw ht
      rcases getElem?_set_cases ht with ⟨rfl, he⟩ | ⟨hne, ht'⟩
      · exact WorkerState.noConfusion he
      · rcases hsw with rfl | rfl <;> (have hx := hw.symm.trans ht'; simp at hx)
    · intro j2 hw hnp
      rcases eq_or_ne i0 i with rfl | hne
      · have hx := hw0.symm.trans hw
        simp at hx
      · rw [List.getElem?_set_ne hne]
        exact Or.inl hw
    · intro w hw hsw ht
      rcases getElem?_set_cases ht with ⟨rfl, he⟩ | ⟨hne, ht'⟩
      · exact ⟨hq0, hsd0⟩
      · rcases hsw with rfl | rfl <;> (have hx := hw.symm.trans ht'; simp at hx)
  | finish i0 j0 hw0 hnp0 =>
    refine ⟨?_, ?_, ?_, ?_⟩
    · intro h
      rcases eq_or_ne i0 i with rfl | hne
      · have hx := hw0.symm.trans h
        simp at hx
      · rw [List.getElem?_set_ne hne]
        exact h
    · intro w j2 hw hsw ht
      rcases getElem?_set_cases ht with ⟨rfl, he⟩ | ⟨hne, ht'⟩
      · exact WorkerState.noConfusion he
      · rcases hsw with rfl | rfl <;> (have hx := hw.symm.trans ht'; simp at hx)
    · intro j2 hw hnp
      rcases eq_or_ne i0 i with rfl | hne
      · have hx := hw0.symm.trans hw
        simp at hx
        subst hx
        exact Or.inr ⟨getElem?_set_self_of_lt (lt_of_getElem?_some hw0), rfl⟩
      · rw [List.getElem?_set_ne hne]
        exact Or.inl hw
    · intro w hw hsw ht
      rcases getElem?_set_cases ht with ⟨rfl, he⟩ | ⟨hne, ht'⟩
      · exact WorkerState.noConfusion he
      · rcases hsw with rfl | rfl <;> (have hx := hw.symm.trans ht'; simp at hx)
  | panicJob i0 j0 hw0 hp0 =>
    refine ⟨?_, ?_, ?_, ?_⟩
    · intro h
      rcases eq_or_ne i0 i with rfl | hne
      · have hx := hw0.symm.trans h
        simp at hx
      · rw [List.getElem?_set_ne hne]
        exact h
    · intro w j2 hw hsw ht
      rcases getElem?_set_cases ht with ⟨rfl, he⟩ | ⟨hne, ht'⟩
      · exact WorkerState.noConfusion he
      · rcases hsw with rfl | rfl <;> (have hx := hw.symm.trans ht'; simp at hx)
    · intro j2 hw hnp
      rcases eq_or_ne i0 i with rfl | hne
      · have hx := hw0.symm.trans hw
        simp at hx
        subst hx
        rw [hnp] at hp0
        exact Bool.noConfusion hp0
      · rw [List.getElem?_set_ne hne]
        exact Or.inl hw
    · intro w hw hsw ht
      rcases getElem?_set_cases ht with ⟨rfl, he⟩ | ⟨hne, ht'⟩
      · exact WorkerState.noConfusion he
      · rcases hsw with rfl | rfl <;> (have hx := hw.symm.trans ht'; simp at hx)
  | beginDrop hm =>
    refine ⟨fun h => h, ?_, ?_, ?_⟩
    · intro w j2 hw hsw ht
      rcases hsw with rfl | rfl <;> (have hx := hw.symm.trans ht; simp at hx)
    · intro j2 hw hnp
      exact Or.inl hw
    · intro w hw hsw ht
      rcases hsw with rfl | rfl <;> (have hx := hw.symm.trans ht; simp at hx)
  | joinWorker k w0 hm hw0 hsd0 =>
    refine ⟨fun h => h, ?_, ?_, ?_⟩
    · intro w j2 hw hsw ht
      rcases hsw with rfl | rfl <;> (have hx := hw.symm.trans ht; simp at hx)
    · intro j2 hw hnp
      exact Or.inl hw
    · intro w hw hsw ht
      rcases hsw with rfl | rfl <;> (have hx := hw.symm.trans ht; simp at hx)
  | finishDrop hm =>
    refine ⟨fun h => h, ?_, ?_, ?_⟩
    · intro w j2 hw hsw ht
      rcases hsw with rfl | rfl <;> (have hx := hw.symm.trans ht; simp at hx)
    · intro j2 hw hnp
      exact Or.inl hw
    · intro w hw hsw ht
      rcases hsw with rfl | rfl <;> (have hx := hw.symm.trans ht; simp at hx)

/-- Witness for C4 at a concrete dequeue: a receiving worker that becomes
running took exactly the queue head and recorded the delivery. -/
theorem worker_state_machine_witness :
    (⟨[5], true, [.receiving], .active, [], [], [5], [], []⟩ : SysState).queue
        = 5 :: (⟨[], true, [.running 5], .active, [], [5], [5], [], []⟩ : SysState).queue ∧
    (⟨[], true, [.running 5], .active, [], [5], [5], [], []⟩ : SysState).delivered
        = (⟨[5], true, [.receiving], .active, [], [], [5], [], []⟩ : SysState).delivered
            ++ [5] := by
  have h := worker_state_machine noPanic 0
    (Step.recvOk (⟨[5], true, [.receiving], .active, [], [], [5], [], []⟩ : SysState)
      0 5 [] rfl rfl)
  exact h.2.1 .receiving 5 rfl (Or.inr rfl) rfl

/-- Claim C5: exclusive access to the shared receiver covers only the
single `recv`: at most one worker holds the mutex at a time; a worker
holding it either stays blocked in `recv` or performs exactly one receive
— dequeuing the queue head or observing closure — and thereby releases
the mutex before running anything; no worker holds the mutex while
running a job; and while one worker runs a job, another worker can
acquire the mutex and dequeue the next job, both then running at once. -/
theorem lock_only_covers_recv {panics : Nat → Bool} {size : Nat} {s : SysState}
    (hr : Reachable panics size s) :
    (∀ i k : Nat, s.workers[i]? = some .receiving →
        s.workers[k]? = some .receiving → i = k) ∧
    (∀ (t : SysState) (i : Nat), Step panics s t →
        s.workers[i]? = some .receiving →
        t.workers[i]? = some .receiving ∨
        (∃ j rest, s.queue = j :: rest ∧ t.workers[i]? = some (.running j)) ∨
        t.workers[i]? = some .stopped) ∧
    (∀ i j : Nat, s.workers[i]? = some (.running j) →
        s.workers[i]? ≠ some .receiving) ∧
    (∀ (i j k j2 : Nat) (rest : List Nat), i ≠ k →
        s.workers[i]? = some (.running j) → s.workers[k]? = some .waiting →
        (∀ m : Nat, s.workers[m]? ≠ some WorkerState.receiving) →
        s.queue = j2 :: rest →
        ∃ t u, Step panics s t ∧ Step panics t u ∧
          u.workers[i]? = some (.running j) ∧
          u.workers[k]? = some (.running j2)) := by
  have hinv := reachable_inv hr
  refine ⟨hinv.mutex, ?_, ?_, ?_⟩
  · intro t i hstep hw
    cases hstep with
    | send j hm ha => exact Or.inl hw
    | acquire i0 hw0 hno => exact absurd hw (hno i)
    | recvOk i0 j0 rest hw0 hq0 =>
      rcases eq_or_ne i0 i with rfl | hne
      · exact Or.inr (Or.inl ⟨j0, rest, hq0,
          getElem?_set_self_of_lt (lt_of_getElem?_some hw0)⟩)
      · rw [List.getElem?_set_ne hne]
        exact Or.inl hw
    | recvErr i0 hw0 hq0 hsd0 =>
      rcases eq_or_ne i0 i with rfl | hne
      · exact Or.inr (Or.inr (getElem?_set_self_of_lt (lt_of_getElem?_some hw0)))
      · rw [List.getElem?_set_ne hne]
        exact Or.inl hw
    | finish i0 j0 hw0 hnp0 =>
      rcases eq_or_ne i0 i with rfl | hne
      · have hx := hw0.symm.trans hw
        simp at hx
      · rw [List.getElem?_set_ne hne]
        exact Or.inl hw
    | panicJob i0 j0 hw0 hp0 =>
      rcases eq_or_ne i0 i with rfl | hne
      · have hx := hw0.symm.trans hw
        simp at hx
      · rw [List.getElem?_set_ne hne]
        exact Or.inl hw
    | beginDrop hm => exact Or.inl hw
    | joinWorker k w hm hw0 hsd0 => exact Or.inl hw
    | finishDrop hm => exact Or.inl hw
  · intro i j hrun hrecv
    have hx := hrun.symm.trans hrecv
    simp at hx
  · intro i j k j2 rest hik hi hk hno hq
    have hklen : k < s.workers.length := lt_of_getElem?_some hk
    refine ⟨{ s with workers := s.workers.set k .receiving },
            _, Step.acquire s k hk hno, Step.recvOk _ k j2 rest ?_ hq, ?_, ?_⟩
    · exact getElem?_set_self_of_lt hklen
    · show ((s.workers.set k .receiving).set k (.running j2))[i]? = some (.running j)
      rw [List.getElem?_set_ne (Ne.symm hik), List.getElem?_set_ne (Ne.symm hik)]
      exact hi
    · show ((s.workers.set k .receiving).set k (.running j2))[k]? = some (.running j2)
      exact getElem?_set_self_of_lt (by rw [List.length_set]; exact hklen)

/-- Witness for C5: in a reachable two-worker state where worker 1 is
running job 5, worker 2 can grab the mutex and dequeue job 7 while job 5
is still running. -/
theorem lock_only_covers_recv_witness :
    ∃ t u,
      Step noPanic
        (⟨[7], true, [.running 5, .waiting], .active, [], [5], [5, 7], [], []⟩ : SysState)
        t ∧
      Step noPanic t u ∧
      u.workers[0]? = some (.running 5) ∧
      u.workers[1]? = some (.running 7) := by
  have h0 : Reachable noPanic 2 (initState 2) := Reachable.init
  have h1 : Reachable noPanic 2
      (⟨[5], true, [.waiting, .waiting], .active, [], [], [5], [], []⟩ : SysState) :=
    Reachable.step h0 (Step.send _ 5 rfl rfl)
  have h2 : Reachable noPanic 2
      (⟨[5, 7], true, [.waiting, .waiting], .active, [], [], [5, 7], [], []⟩ : SysState) :=
    Reachable.step h1 (Step.send _ 7 rfl rfl)
  have h3 : Reachable noPanic 2
      (⟨[5, 7], true, [.receiving, .waiting], .active, [], [], [5, 7], [], []⟩ : SysState) :=
    Reachable.step h2 (Step.acquire _ 0 rfl
      (by intro m; rcases m with _ | _ | m <;> simp))
  have h4 : Reachable noPanic 2
      (⟨[7], true, [.running 5, .waiting], .active, [], [5], [5, 7], [], []⟩ : SysState) :=
    Reachable.step h3 (Step.recvOk _ 0 5 [7] rfl rfl)
  exact (lock_only_covers_recv h4).2.2.2 0 5 1 7 []
    (by decide) rfl rfl (by intro m; rcases m with _ | _ | m <;> simp) rfl

/-- Claim C6: jobs sent through the single producer handle reach workers
in FIFO order — in every reachable state the delivery history is a prefix
of the submission history — and a send is always enabled while the pool
is alive, so `execute` never blocks the caller; for a pool of exactly one
worker the execution history is additionally a prefix of the submission
history, i.e. jobs run in their submission order. -/
theorem fifo_order {size : Nat} {s : SysState} (hr : Reachable noPanic size s) :
    (∃ rest, s.submitted = s.delivered ++ rest) ∧
    (∀ j : Nat, s.main = .active →
        Step noPanic s { s with queue := s.queue ++ [j],
                                submitted := s.submitted ++ [j] }) ∧
    (size = 1 → ∃ rest, s.submitted = s.executed ++ rest) := by
  have hinv := reachable_inv hr
  refine ⟨⟨s.queue, hinv.sub⟩, ?_, ?_⟩
  · intro j hact
    exact Step.send s j hact (hinv.alive.mpr hact)
  · intro h1
    have hone := hinv.oneWorker h1 (fun j => rfl)
    exact ⟨runningJobs s.workers ++ s.queue,
      by rw [hinv.sub, hone, List.append_assoc]⟩

/-- Witness for C6: a one-worker pool that already ran job 5 with job 7
still queued — the delivery and execution histories are prefixes of the
submission history and a further send of job 9 is enabled. -/
theorem fifo_order_witness :
    (∃ rest,
      (⟨[7], true, [.waiting], .active, [5], [5], [5, 7], [], []⟩ : SysState).submitted
        = (⟨[7], true, [.waiting], .active, [5], [5], [5, 7], [], []⟩ : SysState).delivered
            ++ rest) ∧
    Step noPanic
      (⟨[7], true, [.waiting], .active, [5], [5], [5, 7], [], []⟩ : SysState)
      { (⟨[7], true, [.waiting], .active, [5], [5], [5, 7], [], []⟩ : SysState) with
          queue := [7] ++ [9], submitted := [5, 7] ++ [9] } ∧
    (∃ rest,
      (⟨[7], true, [.waiting], .active, [5], [5], [5, 7], [], []⟩ : SysState).submitted
        = (⟨[7], true, [.waiting], .active, [5], [5], [5, 7], [], []⟩ : SysState).executed
            ++ rest) := by
  have h0 : Reachable noPanic 1 (initState 1) := Reachable.init
  have h1 : Reachable noPanic 1
      (⟨[5], true, [.waiting], .active, [], [], [5], [], []⟩ : SysState) :=
    Reachable.step h0 (Step.send _ 5 rfl rfl)
  have h2 : Reachable noPanic 1
      (⟨[5, 7], true, [.waiting], .active, [], [], [5, 7], [], []⟩ : SysState) :=
    Reachable.step h1 (Step.send _ 7 rfl rfl)
  have h3 : Reachable noPanic 1
      (⟨[5, 7], true, [.receiving], .active, [], [], [5, 7], [], []⟩ : SysState) :=
    Reachable.step h2 (Step.acquire _ 0 rfl (by intro m; rcases m with _ | m <;> simp))
  have h4 : Reachable noPanic 1
      (⟨[7], true, [.running 5], .active, [], [5], [5, 7], [], []⟩ : SysState) :=
    Reachable.step h3 (Step.recvOk _ 0 5 [7] rfl rfl)
  have h5 : Reachable noPanic 1
      (⟨[7], true, [.waiting], .active, [5], [5], [5, 7], [], []⟩ : SysState) :=
    Reachable.step h4 (Step.finish _ 0 5 rfl rfl)
  have h := fifo_order h5
  exact ⟨h.1, h.2.1 9 rfl, h.2.2 rfl⟩

/-- Claim C1: for every `size >= 1`, `ThreadPool::new size` succeeds and the
returned pool owns exactly `size` occupied worker-handle slots whose
identifiers are `1, 2, ..., size` in order, while `ThreadPool::new 0`
panics (returns `none`), never an empty pool. -/
theorem new_spec (size : Nat) (h : 1 ≤ size) :
    (∃ p : ThreadPool,
        ThreadPool.new size = some p ∧
        p.sender = some () ∧
        p.threads.length = size ∧
        p.threads = (List.range' 1 size).map (fun id => some (id, ()))) ∧
    ThreadPool.new 0 = none := by
  constructor
  · refine ⟨{ sender := some ()
              threads := (List.range' 1 size).map (fun id => some (id, ())) },
            ?_, rfl, by simp, rfl⟩
    simp [ThreadPool.new, Nat.lt_of_lt_of_le Nat.zero_lt_one h]
  · rfl

/-- Concrete instantiation of `new_spec` at `size = 3`. -/
theorem new_spec_witness :
    (∃ p : ThreadPool,
        ThreadPool.new 3 = some p ∧
        p.sender = some () ∧
        p.threads.length = 3 ∧
        p.threads = (List.range' 1 3).map (fun id => some (id, ()))) ∧
    ThreadPool.new 0 = none :=
  new_spec 3 (by decide)

/-- Claim C7: for every job closure `f`, `execute` wraps `f` in the
pool's internal boxed job representation (`boxNew f`) and submits exactly
that through the producer handle — the channel queue grows by `boxNew f`
at the back — returning `()` (no value) to the caller without touching
any worker: as a pure function of the pool and channel alone it cannot
wait for the job to start or finish. -/
theorem execute_wraps_and_returns (p : ThreadPool) (ch : Channel (Boxed JobFn))
    (f : JobFn) (hs : p.sender = some ()) (hra : ch.receiverAlive = true) :
    ThreadPool.execute p ch f =
      .ok ((), { sender := p.sender, threads := p.threads },
           { ch with queue := ch.queue ++ [boxNew f] }) := by
  simp [ThreadPool.execute, Channel.send, hs, hra]

/-- Witness for C7 on a concrete one-worker pool and empty channel. -/
theorem execute_wraps_and_returns_witness :
    ThreadPool.execute ⟨some (), [some (1, ())]⟩ ⟨[], true⟩ (fun _ => ()) =
      .ok ((), ⟨some (), [some (1, ())]⟩,
           ⟨[] ++ [boxNew (fun _ => () : JobFn)], true⟩) :=
  execute_wraps_and_returns ⟨some (), [some (1, ())]⟩ ⟨[], true⟩ (fun _ => ()) rfl rfl

/-- Claim C8: calling `execute` after the producer handle was released
(the sender slot is `None`, as left behind by `drop(self.sender.take())`)
panics on the `unwrap` of the sender, and calling it when the consumer
side of the channel is fully gone panics on the `unwrap` of `send` — in
both situations the result is an error (a loud panic), never a silent
`ok`, and the job is not silently dropped into a working channel. -/
theorem execute_after_shutdown (p : ThreadPool) (ch : Channel (Boxed JobFn))
    (f : JobFn) :
    (p.sender = none →
        ThreadPool.execute p ch f =
          .error "called Option::unwrap on a None value") ∧
    (ch.receiverAlive = false →
        ∀ r, ThreadPool.execute p ch f ≠ .ok r) := by
  constructor
  · intro hs
    simp [ThreadPool.execute, hs]
  · intro hra r
    cases hps : p.sender with
    | none => simp [ThreadPool.execute, hps]
    | some u => simp [ThreadPool.execute, Channel.send, hps, hra]

/-- Witness for C8: a pool whose sender slot is empty panics on
`execute`, and a pool whose channel lost its receiver never succeeds. -/
theorem execute_after_shutdown_witness :
    ThreadPool.execute ⟨none, [some (1, ())]⟩ ⟨[], true⟩ (fun _ => ()) =
      .error "called Option::unwrap on a None value" ∧
    ThreadPool.execute ⟨some (), [some (1, ())]⟩ ⟨[], false⟩ (fun _ => ()) ≠
      .ok ((), ⟨some (), [some (1, ())]⟩, ⟨[], false⟩) :=
  ⟨(execute_after_shutdown ⟨none, [some (1, ())]⟩ ⟨[], true⟩ (fun _ => ())).1 rfl,
   (execute_after_shutdown ⟨some (), [some (1, ())]⟩ ⟨[], false⟩ (fun _ => ())).2 rfl
     ((), ⟨some (), [some (1, ())]⟩, ⟨[], false⟩)⟩

/-- Claim C9: a panicking job is not caught by the pool: the hosting
worker either is still running the job or has moved to the terminal
`dead` state, recording no execution, leaving the submitting thread, the
queue and every other worker untouched (nothing is reported back to the
`execute` caller); a dead worker never takes another step (the pool never
restarts it); and the rest of the system keeps running — there is a
reachable two-worker run in which worker 1 dies on job 9 while worker 2
still dequeues and completes job 5. -/
theorem job_panic_kills_worker (panics : Nat → Bool) :
    (∀ (s t : SysState) (i j : Nat), Step panics s t →
        s.workers[i]? = some (.running j) → panics j = true →
        t.workers[i]? = some (.running j) ∨
        (t.workers[i]? = some .dead ∧ t.executed = s.executed ∧
         t.panicked = s.panicked ++ [j] ∧ t.main = s.main ∧ t.queue = s.queue ∧
         ∀ m : Nat, m ≠ i → t.workers[m]? = s.workers[m]?)) ∧
    (∀ (s t : SysState) (i : Nat), Step panics s t →
        s.workers[i]? = some .dead → t.workers[i]? = some .dead) ∧
    (∃ s : SysState, Reachable (fun j => j == 9) 2 s ∧
        s.workers = [.dead, .waiting] ∧ s.executed = [5] ∧ s.panicked = [9]) := by
  refine ⟨?_, ?_, ?_⟩
  · intro s t i j hstep hw hp
    cases hstep with
    | send j2 hm ha => exact Or.inl hw
    | acquire i0 hw0 hno =>
      rcases eq_or_ne i0 i with rfl | hne
      · have hx := hw0.symm.trans hw
        simp at hx
      · rw [List.getElem?_set_ne hne]
        exact Or.inl hw
    | recvOk i0 j0 rest hw0 hq0 =>
      rcases eq_or_ne i0 i with rfl | hne
      · have hx := hw0.symm.trans hw
        simp at hx
      · rw [List.getElem?_set_ne hne]
        exact Or.inl hw
    | recvErr i0 hw0 hq0 hsd0 =>
      rcases eq_or_ne i0 i with rfl | hne
      · have hx := hw0.symm.trans hw
        simp at hx
      · rw [List.getElem?_set_ne hne]
        exact Or.inl hw
    | finish i0 j0 hw0 hnp0 =>
      rcases eq_or_ne i0 i with rfl | hne
      · have hx := hw0.symm.trans hw
        simp at hx
        subst hx
        rw [hp] at hnp0
        exact Bool.noConfusion hnp0
      · rw [List.getElem?_set_ne hne]
        exact Or.inl hw
    | panicJob i0 j0 hw0 hp0 =>
      rcases eq_or_ne i0 i with rfl | hne
      · have hx := hw0.symm.trans hw
        simp at hx
        subst hx
        refine Or.inr ⟨getElem?_set_self_of_lt (lt_of_getElem?_some hw0),
          rfl, rfl, rfl, rfl, fun m hm => ?_⟩
        rw [List.getElem?_set_ne (Ne.symm hm)]
      · rw [List.getElem?_set_ne hne]
        exact Or.inl hw
    | beginDrop hm => exact Or.inl hw
    | joinWorker k w hm hw0 hsd0 => exact Or.inl hw
    | finishDrop hm => exact Or.inl hw
  · intro s t i hstep hw
    cases hstep with
    | send j2 hm ha => exact hw
    | acquire i0 hw0 hno =>
      rcases eq_or_ne i0 i with rfl | hne
      · have hx := hw0.symm.trans hw
        simp at hx
      · rw [List.getElem?_set_ne hne]
        exact hw
    | recvOk i0 j0 rest hw0 hq0 =>
      rcases eq_or_ne i0 i with rfl | hne
      · have hx := hw0.symm.trans hw
        simp at hx
      · rw [List.getElem?_set_ne hne]
        exact hw
    | recvErr i0 hw0 hq0 hsd0 =>
      rcases eq_or_ne i0 i with rfl | hne
      · have hx := hw0.symm.trans hw
        simp at hx
      · rw [List.getElem?_set_ne hne]
        exact hw
    | finish i0 j0 hw0 hnp0 =>
      rcases eq_or_ne i0 i with rfl | hne
      · have hx := hw0.symm.trans hw
        simp at hx
      · rw [List.getElem?_set_ne hne]
        exact hw
    | panicJob i0 j0 hw0 hp0 =>
      rcases eq_or_ne i0 i with rfl | hne
      · have hx := hw0.symm.trans hw
        simp at hx
      · rw [List.getElem?_set_ne hne]
        exact hw
    | beginDrop hm => exact hw
    | joinWorker k w hm hw0 hsd0 => exact hw
    | finishDrop hm => exact hw
  · refine ⟨⟨[], true, [.dead, .waiting], .active, [5], [9, 5], [9, 5], [9], []⟩,
      ?_, rfl, rfl, rfl⟩
    have h0 : Reachable (fun j => j == 9) 2 (initState 2) := Reachable.init
    have h1 : Reachable (fun j => j == 9) 2
        (⟨[9], true, [.waiting, .waiting], .active, [], [], [9], [], []⟩ : SysState) :=
      Reachable.step h0 (Step.send _ 9 rfl rfl)
    have h2 : Reachable (fun j => j == 9) 2
        (⟨[9, 5], true, [.waiting, .waiting], .active, [], [], [9, 5], [], []⟩ : SysState) :=
      Reachable.step h1 (Step.send _ 5 rfl rfl)
    have h3 : Reachable (fun j => j == 9) 2
        (⟨[9, 5], true, [.receiving, .waiting], .active, [], [], [9, 5], [], []⟩ : SysState) :=
      Reachable.step h2 (Step.acquire _ 0 rfl
        (by intro m; rcases m with _ | _ | m <;> simp))
    have h4 : Reachable (fun j => j == 9) 2
        (⟨[5], true, [.running 9, .waiting], .active, [], [9], [9, 5], [], []⟩ : SysState) :=
      Reachable.step h3 (Step.recvOk _ 0 9 [5] rfl rfl)
    have h5 : Reachable (fun j => j == 9) 2
        (⟨[5], true, [.dead, .waiting], .active, [], [9], [9, 5], [9], []⟩ : SysState) :=
      Reachable.step h4 (Step.panicJob _ 0 9 rfl rfl)
    have h6 : Reachable (fun j => j == 9) 2
        (⟨[5], true, [.dead, .receiving], .active, [], [9], [9, 5], [9], []⟩ : SysState) :=
      Reachable.step h5 (Step.acquire _ 1 rfl
        (by intro m; rcases m with _ | _ | m <;> simp))
    have h7 : Reachable (fun j => j == 9) 2
        (⟨[], true, [.dead, .running 5], .active, [], [9, 5], [9, 5], [9], []⟩ : SysState) :=
      Reachable.step h6 (Step.recvOk _ 1 5 [] rfl rfl)
    exact Reachable.step h7 (Step.finish _ 1 5 rfl rfl)

/-- Witness for C9 at a concrete panic step: worker 1 running the
panicking job 9 moves to `dead`, no execution is recorded, the panic is
recorded, and the other worker is untouched. -/
theorem job_panic_kills_worker_witness :
    (⟨[], true, [.dead, .waiting], .active, [], [9], [9], [9], []⟩ : SysState).executed
        = [] ∧
    (⟨[], true, [.dead, .waiting], .active, [], [9], [9], [9], []⟩ : SysState).workers[1]?
        = some WorkerState.waiting := by
  have h := (job_panic_kills_worker (fun j => j == 9)).1
    (⟨[], true, [.running 9, .waiting], .active, [], [9], [9], [], []⟩ : SysState)
    (⟨[], true, [.dead, .waiting], .active, [], [9], [9], [9], []⟩ : SysState)
    0 9
    (Step.panicJob (⟨[], true, [.running 9, .waiting], .active, [], [9], [9], [], []⟩ :
        SysState) 0 9 rfl rfl)
    rfl rfl
  rcases h with h | h
  · simp at h
  · exact ⟨h.2.1, (h.2.2.2.2.2 1 (by decide)).trans rfl⟩

/-- Claim C10: `execute` takes the pool by shared reference and leaves
the pool's own state unchanged: on success the returned pool carries
exactly the original producer-handle slot and worker-handle vector, and
in the transition system the only step that extends the submission
history — a send by `execute` — changes neither the worker states nor
the sender's liveness nor the main thread's position. -/
theorem execute_frame :
    (∀ (p : ThreadPool) (ch : Channel (Boxed JobFn)) (f : JobFn)
        (u : Unit) (p2 : ThreadPool) (ch2 : Channel (Boxed JobFn)),
        ThreadPool.execute p ch f = .ok (u, p2, ch2) →
        p2.sender = p.sender ∧ p2.threads = p.threads) ∧
    (∀ (panics : Nat → Bool) (s t : SysState), Step panics s t →
        t.submitted ≠ s.submitted →
        t.workers = s.workers ∧ t.senderAlive = s.senderAlive ∧
        t.main = s.main) := by
  constructor
  · intro p ch f u p2 ch2 h
    cases hps : p.sender with
    | none => simp [ThreadPool.execute, hps] at h
    | some v =>
      cases v
      by_cases hra : ch.receiverAlive
      · have hex : ThreadPool.execute p ch f =
            .ok ((), { sender := p.sender, threads := p.threads },
                 { ch with queue := ch.queue ++ [boxNew f] }) := by
          simp [ThreadPool.execute, Channel.send, hps, hra]
        rw [hex] at h
        injection h with hh
        injection hh with hh1 hh2
        injection hh2 with hh3 hh4
        rw [← hh3]
        exact ⟨hps, rfl⟩
      · simp [ThreadPool.execute, Channel.send, hps, hra] at h
  · intro panics s t hstep hne
    cases hstep with
    | send j hm ha => exact ⟨rfl, rfl, rfl⟩
    | acquire i0 hw0 hno => exact absurd rfl hne
    | recvOk i0 j0 rest hw0 hq0 => exact absurd rfl hne
    | recvErr i0 hw0 hq0 hsd0 => exact absurd rfl hne
    | finish i0 j0 hw0 hnp0 => exact absurd rfl hne
    | panicJob i0 j0 hw0 hp0 => exact absurd rfl hne
    | beginDrop hm => exact absurd rfl hne
    | joinWorker k w hm hw0 hsd0 => exact absurd rfl hne
    | finishDrop hm => exact absurd rfl hne

/-- Witness for C10: a concrete successful `execute` returns the pool
with the same sender slot and thread vector, and a concrete send step
leaves workers, sender and main state unchanged. -/
theorem execute_frame_witness :
    ((⟨some (), [some (1, ())]⟩ : ThreadPool).sender = some () ∧
     (⟨some (), [some (1, ())]⟩ : ThreadPool).threads = [some (1, ())]) ∧
    ((initState 1).workers = (initState 1).workers ∧
     true = (initState 1).senderAlive ∧ MainState.active = (initState 1).main) := by
  constructor
  · have h := execute_frame.1 ⟨some (), [some (1, ())]⟩ ⟨[], true⟩ (fun _ => ())
      () ⟨some (), [some (1, ())]⟩
      ⟨[(boxNew (fun _ => ()) : Boxed JobFn)], true⟩ rfl
    exact h
  · have h := execute_frame.2 noPanic (initState 1)
      { initState 1 with queue := [] ++ [5], submitted := [] ++ [5] }
      (Step.send _ 5 rfl rfl) (by simp [initState])
    exact h

end Hello
